import Mathlib

/-! LES server coordinator and `ethchain` transactions.

A shallow embedding of `les/server.go` (thread counts, recharge curves, the
event loop, `Start`), of `ethchain/transaction.go` (RLP list layout,
`Sender`) and of `ethchain/transaction_pool.go` (`ProcessTransaction`), with
the properties proved about them.

Conventions.
* Go `int` is the 64-bit two's-complement integer: an `Int` wrapped by `wrapInt`.
* Go `uint64` is a `Nat` reduced modulo `2^64` after every `*`.
* Go `byte` is a `Nat` reduced modulo `256` on conversion.
* A run-time panic (integer division by zero, index out of range) is `none`.
-/

namespace Les

/-! ## Machine integers -/

/-- Two's-complement wrap of a mathematical integer into Go's 64-bit `int`. -/
def wrapInt (x : Int) : Int := (x + 2 ^ 63) % 2 ^ 64 - 2 ^ 63

/-- Wrap of a natural number into Go's `uint64`. -/
def wrapU64 (x : Nat) : Nat := x % 2 ^ 64

/-- Go's conversion `uint64(i)` of an `int`. -/
def intToU64 (i : Int) : Nat := (i % 2 ^ 64).toNat

/-- The constant `bufLimitRatio` of `les/server.go`: fixed bufLimit/MRR ratio. -/
def bufLimitRatio : Nat := 6000

/-! ## `NewLesServer`: the serving thread counts -/

/-- The value `NewLesServer` stores in `srv.thcNormal`:
`config.LightServ * 4 / 100`, raised to `4` when smaller. Go's `/` on `int`
truncates toward zero and `*` wraps. -/
def thcNormal (LightServ : Int) : Int :=
  let t := wrapInt (Int.tdiv (wrapInt (LightServ * 4)) 100)
  if t < 4 then 4 else t

/-- The value `NewLesServer` stores in `srv.thcBlockProcessing`:
`config.LightServ/100 + 1`. -/
def thcBlockProcessing (LightServ : Int) : Int :=
  wrapInt (wrapInt (Int.tdiv LightServ 100) + 1)

/-- The type `flowcontrol.ServerParams`, as `Start` fills it. -/
structure ServerParams where
  BufLimit : Nat
  MinRecharge : Nat
  deriving DecidableEq, Repr

/-- The fields of `LesServer` that the coordinator reads and writes. -/
structure LesServer where
  thcNormal : Int
  thcBlockProcessing : Int
  maxPeers : Int
  minCapacity : Nat
  freeClientCap : Nat
  defParams : ServerParams
  deriving DecidableEq, Repr

/-- The server built by `NewLesServer` from `config.LightServ` and the minimum
capacity returned by `newCostTracker`; the fields the constructor does not
mention hold Go's zero values. -/
def NewLesServer (LightServ : Int) (minCapacity : Nat) : LesServer :=
  { thcNormal := thcNormal LightServ
    thcBlockProcessing := thcBlockProcessing LightServ
    maxPeers := 0
    minCapacity := minCapacity
    freeClientCap := 0
    defParams := ⟨0, 0⟩ }

/-! ## `Start`: free-client capacity and default flow-control parameters -/

/-- The arguments `Start` passes to `fcManager.SetCapacityLimits`. -/
structure CapacityLimits where
  min : Nat
  max : Nat
  maxPerClient : Nat
  deriving DecidableEq, Repr

/-- The configuration part of `LesServer.Start`: `LightPeers` is
`s.config.LightPeers`, `totalRecharge` is `s.costTracker.totalRecharge()`.
Returns the updated server and the limits handed to the client manager. -/
def Start (s : LesServer) (LightPeers : Int) (totalRecharge : Nat) :
    LesServer × CapacityLimits :=
  let s1 : LesServer := { s with maxPeers := LightPeers }
  let s2 : LesServer :=
    if s1.maxPeers > 0 then
      let a : LesServer := { s1 with freeClientCap := s1.minCapacity }
      let b : LesServer :=
        if a.freeClientCap < a.minCapacity then { a with freeClientCap := a.minCapacity } else a
      if b.freeClientCap > 0 then
        { b with defParams :=
            { BufLimit := wrapU64 (b.freeClientCap * bufLimitRatio)
              MinRecharge := b.freeClientCap } }
      else b
    else s1
  let maxCapacity := wrapU64 (s2.freeClientCap * intToU64 s2.maxPeers)
  let maxCapacity := if totalRecharge > maxCapacity then totalRecharge else maxCapacity
  (s2, ⟨s2.freeClientCap, maxCapacity, wrapU64 (s2.freeClientCap * 2)⟩)

/-! ## `startEventLoop`: the coordinator -/

/-- One control point of `flowcontrol.PieceWiseLinear`, a `struct{ X, Y uint64 }`. -/
structure Point where
  X : Nat
  Y : Nat
  deriving DecidableEq, Repr

/-- The type `flowcontrol.PieceWiseLinear`: a slice of control points. -/
abbrev PieceWiseLinear := List Point

/-- The local variables of `startEventLoop` together with the last values it
pushed to its collaborators: `threads` is the last argument of
`servingQueue.setThreads`, `curve` the last argument of
`fcManager.SetRechargeCurve`, `limits` the last arguments of
`priorityClientPool.setLimits`, `events` the messages given to
`blockProcLogger.Event`, `warned` the values reported by `log.Warn`, and
`running` is cleared when `quitSync` fires. -/
structure LoopState where
  processing : Bool
  procLast : Bool
  totalRecharge : Nat
  totalCapacity : Nat
  maxFreePeers : Nat
  threads : Int
  curve : PieceWiseLinear
  limits : Int × Nat
  events : List String
  warned : List Nat
  running : Bool
  deriving DecidableEq, Repr

/-- The closure `updateRecharge` of `startEventLoop`. -/
def updateRecharge (s : LesServer) (st : LoopState) : LoopState :=
  if st.processing then
    { st with
      events := if !st.procLast then st.events ++ ["block processing started"] else st.events
      threads := s.thcBlockProcessing
      curve := [⟨0, 0⟩, ⟨st.totalRecharge, st.totalRecharge⟩]
      procLast := st.processing }
  else
    { st with
      events := if st.procLast then st.events ++ ["block processing finished"] else st.events
      threads := s.thcNormal
      curve := [⟨0, 0⟩, ⟨st.totalRecharge / 16, st.totalRecharge / 2⟩,
        ⟨st.totalRecharge / 2, st.totalRecharge / 2⟩, ⟨st.totalRecharge, st.totalRecharge⟩]
      procLast := st.processing }

/-- The state in which `startEventLoop` enters its loop: `totalRecharge` is the
value returned by `subscribeTotalRecharge`, `totalCapacity` the one returned by
`SubscribeTotalCapacity`; `threads0` and `curve0` are what the serving queue and
the client manager held before. -/
def startEventLoop (s : LesServer) (totalRecharge totalCapacity : Nat)
    (threads0 : Int) (curve0 : PieceWiseLinear) : LoopState :=
  let st : LoopState :=
    { processing := false, procLast := false, totalRecharge := totalRecharge,
      totalCapacity := 0, maxFreePeers := 0, threads := threads0, curve := curve0,
      limits := (0, 0), events := [], warned := [], running := true }
  let st := updateRecharge s st
  { st with totalCapacity := totalCapacity, limits := (s.maxPeers, totalCapacity) }

/-- What the `select` of the event loop can receive. -/
inductive Event where
  | blockProc (b : Bool)
  | totalRecharge (t : Nat)
  | totalCapacity (c : Nat)
  | quit
  deriving DecidableEq, Repr

/-- One iteration of the event loop on a received event. `none` is the run-time
panic of the integer division `totalCapacity / s.freeClientCap` by zero. -/
def handle (s : LesServer) (st : LoopState) : Event → Option LoopState
  | .blockProc b => some (updateRecharge s { st with processing := b })
  | .totalRecharge t => some (updateRecharge s { st with totalRecharge := t })
  | .totalCapacity c =>
    let st := { st with totalCapacity := c }
    if s.freeClientCap = 0 then none
    else
      let newFreePeers := st.totalCapacity / s.freeClientCap
      let st :=
        if newFreePeers < st.maxFreePeers ∧ newFreePeers < intToU64 s.maxPeers then
          { st with warned := st.warned ++ [newFreePeers] }
        else st
      let st := { st with maxFreePeers := newFreePeers }
      some { st with limits := (s.maxPeers, st.totalCapacity) }
  | .quit => some { st with running := false }

/-- The event loop on a finite sequence of received events; it returns at
`quit` and a panic aborts it. -/
def run (s : LesServer) (st : LoopState) : List Event → Option LoopState
  | [] => some st
  | e :: es =>
    if st.running then
      match handle s st e with
      | some st' => run s st' es
      | none => none
    else some st

/-- The thread count and the curve of a state are the ones `updateRecharge`
derives from the state's own `processing` flag and `totalRecharge`. -/
def Tuned (s : LesServer) (st : LoopState) : Prop :=
  st.threads = (if st.processing then s.thcBlockProcessing else s.thcNormal) ∧
  st.curve =
    (if st.processing then [⟨0, 0⟩, ⟨st.totalRecharge, st.totalRecharge⟩]
     else [⟨0, 0⟩, ⟨st.totalRecharge / 16, st.totalRecharge / 2⟩,
       ⟨st.totalRecharge / 2, st.totalRecharge / 2⟩,
       ⟨st.totalRecharge, st.totalRecharge⟩])

/-- Modelled from the spec: the evaluation of a recharge curve, whose code
(package `flowcontrol`) is not among the sources. The glossary describes the
curve as a "piecewise-linear function mapping cumulative issued recharge to the
current rate of recharge": up to the first control point the rate is that
point's, past the last one it is the last point's, and between two neighbouring
control points it is the straight line through them, over the rationals. -/
def valueAt : PieceWiseLinear → ℚ → ℚ
  | [], _ => 0
  | [p], _ => p.Y
  | p :: q :: rest, x =>
    if x ≤ p.X then p.Y
    else if x ≤ q.X then p.Y + ((q.Y : ℚ) - p.Y) * (x - p.X) / ((q.X : ℚ) - p.X)
    else valueAt (q :: rest) x

end Les

namespace Ethchain

/-! ## `ethchain/transaction.go` -/

/-- The dynamic values `transaction.go` stores in an `interface{}`: a `uint64`,
a `byte`, a `*big.Int` (`none` is the nil pointer), a `[]byte`, a `string` and
a `[]interface{}`. A byte is a `Nat` below 256; a nil slice and an empty slice
are both the empty list. -/
inductive Iface where
  | uint64 (n : Nat)
  | byte (b : Nat)
  | bigInt (p : Option Int)
  | bytes (bs : List Nat)
  | string (bs : List Nat)
  | list (xs : List Iface)

/-- The struct `Transaction`. -/
structure Transaction where
  Nonce : Nat
  Recipient : List Nat
  Value : Option Int
  Gas : Option Int
  GasPrice : Option Int
  Data : List Nat
  Init : List Nat
  v : Nat
  r : List Nat
  s : List Nat
  contractCreation : Bool
  deriving DecidableEq, Repr

/-- The value of `&Transaction{}`: every field holds Go's zero value. -/
def Transaction.zero : Transaction :=
  { Nonce := 0, Recipient := [], Value := none, Gas := none, GasPrice := none,
    Data := [], Init := [], v := 0, r := [], s := [], contractCreation := false }

/-- The function `NewTransactionMessage`: the fields it does not mention hold
Go's zero values, so the transaction is unsigned. -/
def NewTransactionMessage (to_ : List Nat) (value gasprice gas : Option Int)
    (data : List Nat) : Transaction :=
  { Nonce := 0, Recipient := to_, Value := value, Gas := gas, GasPrice := gasprice,
    Data := data, Init := [], v := 0, r := [], s := [], contractCreation := false }

/-- The method `RlpData`: the list
`[NONCE, VALUE, GASPRICE, GAS, TO, DATA, V, R, S]`, with `INIT` appended before
`V` for a contract creation. -/
def Transaction.RlpData (tx : Transaction) : Iface :=
  let data : List Iface :=
    [.uint64 tx.Nonce, .bigInt tx.Value, .bigInt tx.GasPrice, .bigInt tx.Gas,
      .bytes tx.Recipient, .bytes tx.Data]
  let data := if tx.contractCreation then data ++ [.bytes tx.Init] else data
  .list (data ++ [.byte tx.v, .bytes tx.r, .bytes tx.s])

/-- The part of package `ethutil` that `RlpValue` and `RlpValueDecode` call. The
package is not among the sources, so the type `ethutil.Value` and its methods
are parameters. -/
structure ValueOps (V : Type) where
  NewValue : Iface → V
  Get : V → Nat → V
  Len : V → Int
  Uint : V → Nat
  BigInt : V → Option Int
  Bytes : V → List Nat

/-- What the decoder needs of the `ethutil.Value` methods: on a value wrapping a
list, `Get` wraps the element at an index inside the list and `Len` is the
length of the list; `Uint`, `BigInt` and `Bytes` give back the wrapped
`uint64` or `byte`, non-nil `*big.Int`, and `[]byte`. -/
def ValueOps.Lawful {V : Type} (ops : ValueOps V) : Prop :=
  (∀ (xs : List Iface) (i : Nat) (x : Iface), xs[i]? = some x →
    ops.Get (ops.NewValue (.list xs)) i = ops.NewValue x) ∧
  (∀ xs : List Iface, ops.Len (ops.NewValue (.list xs)) = xs.length) ∧
  (∀ n : Nat, n < 2 ^ 64 → ops.Uint (ops.NewValue (.uint64 n)) = n) ∧
  (∀ b : Nat, b < 256 → ops.Uint (ops.NewValue (.byte b)) = b) ∧
  (∀ z : Int, ops.BigInt (ops.NewValue (.bigInt (some z))) = some z) ∧
  (∀ bs : List Nat, ops.Bytes (ops.NewValue (.bytes bs)) = bs)

/-- The method `RlpValue`. -/
def Transaction.RlpValue {V : Type} (ops : ValueOps V) (tx : Transaction) : V :=
  ops.NewValue tx.RlpData

/-- The method `RlpValueDecode`; `byte(...)` reduces modulo 256. -/
def Transaction.RlpValueDecode {V : Type} (ops : ValueOps V) (tx : Transaction)
    (decoder : V) : Transaction :=
  let tx := { tx with Nonce := ops.Uint (ops.Get decoder 0) }
  let tx := { tx with Value := ops.BigInt (ops.Get decoder 1) }
  let tx := { tx with GasPrice := ops.BigInt (ops.Get decoder 2) }
  let tx := { tx with Gas := ops.BigInt (ops.Get decoder 3) }
  let tx := { tx with Recipient := ops.Bytes (ops.Get decoder 4) }
  let tx := { tx with Data := ops.Bytes (ops.Get decoder 5) }
  if ops.Len decoder = 10 then
    let tx := { tx with contractCreation := true }
    let tx := { tx with Init := ops.Bytes (ops.Get decoder 6) }
    let tx := { tx with v := ops.Uint (ops.Get decoder 7) % 256 }
    let tx := { tx with r := ops.Bytes (ops.Get decoder 8) }
    { tx with s := ops.Bytes (ops.Get decoder 9) }
  else
    let tx := { tx with v := ops.Uint (ops.Get decoder 6) % 256 }
    let tx := { tx with r := ops.Bytes (ops.Get decoder 7) }
    { tx with s := ops.Bytes (ops.Get decoder 8) }

/-- The function `NewTransactionFromValue`. -/
def NewTransactionFromValue {V : Type} (ops : ValueOps V) (val : V) : Transaction :=
  Transaction.zero.RlpValueDecode ops val

/-- An instance of the `ethutil.Value` methods on the bare `interface{}` value:
an index past the list, or a method applied to a value of another dynamic
type, gives the zero value. It shows that `ValueOps.Lawful` can be met. -/
def plainOps : ValueOps (Option Iface) where
  NewValue := some
  Get := fun v i =>
    match v with
    | some (.list xs) => xs[i]?
    | _ => none
  Len := fun v =>
    match v with
    | some (.list xs) => xs.length
    | some (.bytes bs) => bs.length
    | _ => 0
  Uint := fun v =>
    match v with
    | some (.uint64 n) => n
    | some (.byte b) => b
    | _ => 0
  BigInt := fun v =>
    match v with
    | some (.bigInt p) => p
    | _ => some 0
  Bytes := fun v =>
    match v with
    | some (.bytes bs) => bs
    | _ => []

/-- The functions of `ethutil` and `secp256k1` that `Hash`, `PublicKey` and
`Sender` call; neither package is among the sources, so they are parameters.
`Encode` stands for `ethutil.NewValue(data).Encode()`, and `RecoverPubkey`
returns the key alone, as `PublicKey` discards the error. -/
structure Crypto where
  Sha3Bin : List Nat → List Nat
  Encode : Iface → List Nat
  RecoverPubkey : List Nat → List Nat → List Nat

/-- The method `Hash`. -/
def Transaction.Hash (c : Crypto) (tx : Transaction) : List Nat :=
  let data : List Iface :=
    [.uint64 tx.Nonce, .bigInt tx.Value, .bigInt tx.GasPrice, .bigInt tx.Gas,
      .bytes tx.Recipient, .string tx.Data]
  let data := if tx.contractCreation then data ++ [.string tx.Init] else data
  c.Sha3Bin (c.Encode (.list data))

/-- The method `PublicKey`: the signature is `r`, then `s`, then the byte
`v - 27`. -/
def Transaction.PublicKey (c : Crypto) (tx : Transaction) : List Nat :=
  let hash := tx.Hash c
  let dst := tx.r
  let sig := dst ++ tx.s
  let sig := sig ++ [(((tx.v : Int) - 27) % 256).toNat]
  c.RecoverPubkey hash sig

/-- The method `Sender`. The outer `none` is a run-time panic (index or slice
bound out of range); `some none` is the returned `nil`. -/
def Transaction.Sender (c : Crypto) (tx : Transaction) : Option (Option (List Nat)) :=
  let pubkey := tx.PublicKey c
  match pubkey[0]? with
  | none => none
  | some b =>
    if b ≠ 4 then some none
    else
      let h := c.Sha3Bin (pubkey.drop 1)
      if h.length < 12 then none else some (some (h.drop 12))

/-! ## `ethchain/transaction_pool.go` -/

/-- The fields of a `StateObject` that `ProcessTransaction` uses: the address
under which the state keeps it, the `*big.Int` field `Amount` and the `uint64`
field `Nonce`. -/
structure StateObject where
  address : List Nat
  Amount : Int
  Nonce : Nat
  deriving DecidableEq, Repr

/-- The methods of `State` and `StateObject` that `ProcessTransaction` calls.
Their code (the rest of package `ethchain`) is not among the sources, so the
type `State` and the methods are parameters. -/
structure StateOps (S : Type) where
  GetAccount : S → List Nat → StateObject
  UpdateStateObject : S → StateObject → S
  SubAmount : StateObject → Int → StateObject
  AddAmount : StateObject → Int → StateObject

/-- What the state methods are taken to do: `SubAmount` and `AddAmount` change
the amount and nothing else, `GetAccount` gives an object of the address asked
for, and after `UpdateStateObject` the state returns the written object at its
address and the earlier object at every other address. -/
def StateOps.Lawful {S : Type} (ops : StateOps S) : Prop :=
  (∀ (o : StateObject) (a : Int), ops.SubAmount o a = { o with Amount := o.Amount - a }) ∧
  (∀ (o : StateObject) (a : Int), ops.AddAmount o a = { o with Amount := o.Amount + a }) ∧
  (∀ (st : S) (addr : List Nat), (ops.GetAccount st addr).address = addr) ∧
  (∀ (st : S) (o : StateObject), ops.GetAccount (ops.UpdateStateObject st o) o.address = o) ∧
  (∀ (st : S) (o : StateObject) (addr : List Nat), addr ≠ o.address →
    ops.GetAccount (ops.UpdateStateObject st o) addr = ops.GetAccount st addr)

/-- The package variables `GasSStore` and `GasTx`, whose declarations are not
among the sources. -/
structure Fees where
  GasSStore : Int
  GasTx : Int
  deriving DecidableEq, Repr

/-- The variable `ethutil.Big32`: the big integer 32. -/
def Big32 : Int := 32

/-- The errors `ProcessTransaction` returns: the two `fmt.Errorf` results and
the error built from a recovered panic. -/
inductive TxError where
  | invalidNonce (stateNonce txNonce : Nat)
  | insufficientAmount (sender : Option (List Nat))
  | recovered
  deriving DecidableEq, Repr

/-- The results of `ProcessTransaction`: the named results `gas` and `err`, and
the state it leaves behind. -/
structure TxResult (S : Type) where
  gas : Int
  err : Option TxError
  state : S

/-- The method `TxPool.ProcessTransaction`. A panic (in `Sender`, or a
`big.Int` operation on a nil pointer) is caught by the deferred `recover` and
becomes the error `recovered`. A nil address is the empty list. The log line
and the reactor post at the end touch neither the results nor the state. -/
def ProcessTransaction {S : Type} (c : Crypto) (ops : StateOps S) (f : Fees)
    (tx : Transaction) (state : S) (_toContract : Bool) : TxResult S :=
  let gas : Int := 0
  match tx.Sender c with
  | none => ⟨gas, some .recovered, state⟩
  | some senderAddr =>
    let sender := ops.GetAccount state (senderAddr.getD [])
    if sender.Nonce ≠ tx.Nonce then
      ⟨gas, some (.invalidNonce sender.Nonce tx.Nonce), state⟩
    else
      let txTotalBytes : Int := tx.Data.length
      let txTotalBytes := txTotalBytes / Big32
      let gas := gas + txTotalBytes * f.GasSStore
      match tx.Gas, tx.GasPrice, tx.Value with
      | some txGas, some gasPrice, some value =>
        let totAmount := value + txGas * gasPrice
        if sender.Amount < totAmount then
          ⟨gas, some (.insufficientAmount senderAddr), state⟩
        else
          let receiver := ops.GetAccount state tx.Recipient
          let sender := { sender with Nonce := Les.wrapU64 (sender.Nonce + 1) }
          if tx.Recipient = senderAddr.getD [] then
            let gas := gas + f.GasTx
            let sender := ops.SubAmount sender (f.GasTx * gasPrice)
            let state := ops.UpdateStateObject state sender
            ⟨gas, none, state⟩
          else
            let sender := ops.SubAmount sender totAmount
            let receiver := ops.AddAmount receiver value
            let state := ops.UpdateStateObject state receiver
            let state := ops.UpdateStateObject state sender
            ⟨gas, none, state⟩
      | _, _, _ => ⟨gas, some .recovered, state⟩

/-- An instance of the state methods: the state is the list of the objects
written so far, newest first, and an address never written holds a fresh
account with amount 0 and nonce 0. It shows that `StateOps.Lawful` can be met. -/
def listOps : StateOps (List StateObject) where
  GetAccount := fun st addr =>
    match st.find? (fun o => o.address = addr) with
    | some o => o
    | none => ⟨addr, 0, 0⟩
  UpdateStateObject := fun st o => o :: st
  SubAmount := fun o a => { o with Amount := o.Amount - a }
  AddAmount := fun o a => { o with Amount := o.Amount + a }

/-- A recovery that always yields the full-format key `4, 0, ..., 0` and a hash
that always yields 32 bytes `7`: with them `Sender` is the address of 20 bytes
`7`. Used for concrete runs. -/
def fixedCrypto : Crypto :=
  ⟨fun _ => List.replicate 32 7, fun _ => [], fun _ _ => 4 :: List.replicate 64 0⟩

end Ethchain

namespace Les

/-! ## Helper facts on wrapping -/

theorem wrapInt_of_range {x : Int} (h1 : -(2 ^ 63) ≤ x) (h2 : x < 2 ^ 63) : wrapInt x = x := by
  unfold wrapInt
  omega

theorem tdiv100_bounds (x : Int) (h1 : -(2 ^ 63) ≤ x) (h2 : x < 2 ^ 63) :
    -(2 ^ 63) ≤ Int.tdiv x 100 ∧ Int.tdiv x 100 < 2 ^ 63 := by
  rcases le_total 0 x with hx | hx
  · rw [Int.tdiv_eq_ediv hx (by decide)]
    omega
  · have e : Int.tdiv x 100 = -((-x) / 100) := by
      have h := Int.tdiv_eq_ediv (a := -x) (b := 100) (by omega) (by decide)
      rw [Int.neg_tdiv] at h
      omega
    rw [e]
    omega

end Les

namespace Les

theorem tdiv100_eq (x : Int) :
    Int.tdiv x 100 = if 0 ≤ x then x / 100 else -((-x) / 100) := by
  split
  · next hx => exact Int.tdiv_eq_ediv hx (by decide)
  · next hx =>
    have h := Int.tdiv_eq_ediv (a := -x) (b := 100) (by omega) (by decide)
    rw [Int.neg_tdiv] at h
    omega

theorem thcNormal_eq_of_range {L : Int} (h1 : -(2 ^ 63) ≤ L * 4) (h2 : L * 4 < 2 ^ 63) :
    thcNormal L = max 4 (Int.tdiv (L * 4) 100) := by
  have hb := tdiv100_bounds (L * 4) h1 h2
  unfold thcNormal
  simp only [wrapInt_of_range h1 h2, wrapInt_of_range hb.1 hb.2]
  split <;> omega

theorem four_le_thcNormal (L : Int) : 4 ≤ thcNormal L := by
  unfold thcNormal
  simp only
  split <;> omega

/-- C1: when `LightServ * 4` does not overflow Go's `int`, `NewLesServer` sets
`thcNormal = max(4, LightServ*4/100)` with truncated division; `thcNormal` is
at least 4 for every `LightServ`; and `thcNormal` is non-decreasing in
`LightServ` over the values without overflow. -/
theorem NewLesServer_thcNormal :
    (∀ (L : Int) (mc : Nat), -(2 ^ 63) ≤ L * 4 → L * 4 < 2 ^ 63 →
      (NewLesServer L mc).thcNormal = max 4 (Int.tdiv (L * 4) 100)) ∧
    (∀ (L : Int) (mc : Nat), 4 ≤ (NewLesServer L mc).thcNormal) ∧
    (∀ (L L' : Int) (mc : Nat), -(2 ^ 63) ≤ L * 4 → L' * 4 < 2 ^ 63 → L ≤ L' →
      (NewLesServer L mc).thcNormal ≤ (NewLesServer L' mc).thcNormal) := by
  refine ⟨fun L mc h1 h2 => thcNormal_eq_of_range h1 h2, fun L mc => four_le_thcNormal L, ?_⟩
  intro L L' mc h1 h2 hle
  show thcNormal L ≤ thcNormal L'
  rw [thcNormal_eq_of_range h1 (by omega), thcNormal_eq_of_range (by omega) h2,
    tdiv100_eq, tdiv100_eq]
  split <;> split <;> omega

/-- Witness for C1 at `LightServ = 250` and `LightServ = 1000`. -/
theorem NewLesServer_thcNormal_witness :
    (NewLesServer 250 0).thcNormal = max 4 (Int.tdiv (250 * 4) 100) ∧
    (NewLesServer 250 0).thcNormal ≤ (NewLesServer 1000 0).thcNormal :=
  ⟨NewLesServer_thcNormal.1 250 0 (by decide) (by decide),
   NewLesServer_thcNormal.2.2 250 1000 0 (by decide) (by decide) (by decide)⟩

/-- C2 as stated fails: at `LightServ = 2^62` the product `LightServ * 4` wraps to
`0`, `thcNormal` is `4`, and `thcBlockProcessing` is far larger. -/
theorem thcBlockProcessing_not_reduced :
    (0 : Int) ≤ 2 ^ 62 ∧ (2 ^ 62 : Int) < 2 ^ 63 ∧
    (NewLesServer (2 ^ 62) 0).thcNormal = 4 ∧
    (NewLesServer (2 ^ 62) 0).thcBlockProcessing = 46116860184273880 ∧
    ¬ ((NewLesServer (2 ^ 62) 0).thcBlockProcessing < (NewLesServer (2 ^ 62) 0).thcNormal) := by
  decide

/-- C2, amended: for `LightServ ≥ 0` with `LightServ * 4` inside Go's `int`,
`thcBlockProcessing = LightServ/100 + 1`, `thcNormal = max(4, LightServ*4/100)`
and the former is strictly smaller. -/
theorem thcBlockProcessing_lt_thcNormal (L : Int) (mc : Nat) (h0 : 0 ≤ L)
    (h2 : L * 4 < 2 ^ 63) :
    (NewLesServer L mc).thcBlockProcessing = L / 100 + 1 ∧
    (NewLesServer L mc).thcNormal = max 4 (L * 4 / 100) ∧
    (NewLesServer L mc).thcBlockProcessing < (NewLesServer L mc).thcNormal := by
  have hN : thcNormal L = max 4 (L * 4 / 100) := by
    rw [thcNormal_eq_of_range (by omega) h2, Int.tdiv_eq_ediv (by omega) (by decide)]
  have hB : thcBlockProcessing L = L / 100 + 1 := by
    unfold thcBlockProcessing
    have e1 : wrapInt (L / 100) = L / 100 := wrapInt_of_range (by omega) (by omega)
    rw [Int.tdiv_eq_ediv h0 (by decide), e1]
    exact wrapInt_of_range (by omega) (by omega)
  refine ⟨hB, hN, ?_⟩
  show thcBlockProcessing L < thcNormal L
  rw [hB, hN]
  omega

/-- Witness for the amended C2 at `LightServ = 399`. -/
theorem thcBlockProcessing_lt_thcNormal_witness :
    (NewLesServer 399 0).thcBlockProcessing < (NewLesServer 399 0).thcNormal :=
  (thcBlockProcessing_lt_thcNormal 399 0 (by decide) (by decide)).2.2

end Les

namespace Les

/-! ## The recharge curves -/

/-- C3: for every total recharge and both values of the processing flag, the
curve `updateRecharge` hands to `SetRechargeCurve` starts at `(0, 0)` and its
control points are non-decreasing in both coordinates; it is
`(0,0),(T,T)` while processing and `(0,0),(T/16,T/2),(T/2,T/2),(T,T)` otherwise. -/
theorem updateRecharge_curve_sorted (s : LesServer) (st : LoopState) :
    (updateRecharge s st).curve.head? = some ⟨0, 0⟩ ∧
    List.Pairwise (fun p q : Point => p.X ≤ q.X ∧ p.Y ≤ q.Y) (updateRecharge s st).curve ∧
    (updateRecharge s st).curve =
      (if st.processing then [⟨0, 0⟩, ⟨st.totalRecharge, st.totalRecharge⟩]
       else [⟨0, 0⟩, ⟨st.totalRecharge / 16, st.totalRecharge / 2⟩,
         ⟨st.totalRecharge / 2, st.totalRecharge / 2⟩,
         ⟨st.totalRecharge, st.totalRecharge⟩]) := by
  unfold updateRecharge
  cases hp : st.processing
  · simp
    omega
  · simp

theorem valueAt_two (T : Nat) (x : ℚ) (h0 : 0 ≤ x) (hT : x ≤ T) :
    valueAt [⟨0, 0⟩, ⟨T, T⟩] x = x := by
  simp only [valueAt, Nat.cast_zero, sub_zero, zero_add]
  rcases eq_or_lt_of_le h0 with h | h
  · simp [← h]
  · have hT0 : (0 : ℚ) < T := lt_of_lt_of_le h hT
    rw [if_neg (not_le.mpr h), if_pos hT]
    field_simp

/-- C4: whatever the state, a block-processing-start event is handled without
failure, leaves the total recharge `T` untouched, sets the serving thread
count to `thcBlockProcessing` and the recharge curve to exactly
`(0,0),(T,T)`; that curve gives a rate below `T` at every accumulated recharge
below `T` and the full rate `T` at `T`. -/
theorem handle_blockProc_start (s : LesServer) (st : LoopState) :
    ∃ st', handle s st (.blockProc true) = some st' ∧
      st'.processing = true ∧ st'.totalRecharge = st.totalRecharge ∧
      st'.threads = s.thcBlockProcessing ∧
      st'.curve = [⟨0, 0⟩, ⟨st.totalRecharge, st.totalRecharge⟩] ∧
      (∀ x : ℚ, 0 ≤ x → x < st.totalRecharge → valueAt st'.curve x < st.totalRecharge) ∧
      valueAt st'.curve st.totalRecharge = st.totalRecharge := by
  refine ⟨_, rfl, ?_, ?_, ?_, ?_, ?_, ?_⟩ <;> simp only [updateRecharge, if_true]
  · intro x h0 hx
    rw [valueAt_two _ _ h0 hx.le]
    exact hx
  · exact valueAt_two _ _ (by positivity) le_rfl

/-- Witness for C4: the rate of the block-processing curve for `T = 1000` at
accumulated recharge `999`. -/
theorem handle_blockProc_start_witness :
    ∃ st', handle (NewLesServer 250 1000) (startEventLoop (NewLesServer 250 1000) 1000 0 0 [])
        (.blockProc true) = some st' ∧
      st'.threads = 3 ∧ valueAt st'.curve 999 < 1000 := by
  obtain ⟨st', h, _, _, h3, _, h5, _⟩ :=
    handle_blockProc_start (NewLesServer 250 1000)
      (startEventLoop (NewLesServer 250 1000) 1000 0 0 [])
  exact ⟨st', h, h3.trans (by decide), by
    have := h5 999 (by norm_num) (by norm_num [startEventLoop, updateRecharge])
    simpa [startEventLoop, updateRecharge] using this⟩

end Les

namespace Les

/-! ## History independence of the coordinator -/

theorem updateRecharge_tuned (s : LesServer) (st : LoopState) : Tuned s (updateRecharge s st) := by
  unfold Tuned updateRecharge
  cases hp : st.processing <;> simp [hp]

theorem handle_tuned (s : LesServer) (st st' : LoopState) (e : Event)
    (hinv : Tuned s st) (h : handle s st e = some st') : Tuned s st' := by
  cases e with
  | blockProc b =>
    simp only [handle, Option.some.injEq] at h
    subst h
    exact updateRecharge_tuned s _
  | totalRecharge t =>
    simp only [handle, Option.some.injEq] at h
    subst h
    exact updateRecharge_tuned s _
  | totalCapacity c =>
    simp only [handle] at h
    split at h
    · exact absurd h (by simp)
    · simp only [Option.some.injEq] at h
      subst h
      split <;> exact hinv
  | quit =>
    simp only [handle, Option.some.injEq] at h
    subst h
    exact hinv

theorem run_tuned (s : LesServer) (es : List Event) :
    ∀ st st' : LoopState, Tuned s st → run s st es = some st' → Tuned s st' := by
  induction es with
  | nil =>
    intro st st' hinv h
    simp only [run, Option.some.injEq] at h
    exact h ▸ hinv
  | cons e es ih =>
    intro st st' hinv h
    simp only [run] at h
    split at h
    · split at h
      · next st1 h1 => exact ih st1 st' (handle_tuned s st st1 e hinv h1) h
      · exact absurd h (by simp)
    · simp only [Option.some.injEq] at h
      exact h ▸ hinv

/-- C5: from a normal-mode state produced by `updateRecharge` with total
recharge `T`, a block-processing-start event followed by a stop event is
handled without failure and restores exactly the thread count `thcNormal` and
the curve `(0,0),(T/16,T/2),(T/2,T/2),(T,T)` held before; and two runs of the
event loop, each from a state produced by `updateRecharge`, that end with the
same processing flag and total recharge end with the same thread count and
curve, whatever the events of each run were. -/
theorem start_stop_restores :
    (∀ (s : LesServer) (st0 : LoopState), st0.processing = false →
      ∃ st1 st2, handle s (updateRecharge s st0) (.blockProc true) = some st1 ∧
        handle s st1 (.blockProc false) = some st2 ∧
        (updateRecharge s st0).threads = s.thcNormal ∧
        (updateRecharge s st0).curve =
          [⟨0, 0⟩, ⟨st0.totalRecharge / 16, st0.totalRecharge / 2⟩,
            ⟨st0.totalRecharge / 2, st0.totalRecharge / 2⟩,
            ⟨st0.totalRecharge, st0.totalRecharge⟩] ∧
        st2.threads = (updateRecharge s st0).threads ∧
        st2.curve = (updateRecharge s st0).curve ∧
        st2.totalRecharge = st0.totalRecharge ∧ st2.processing = false) ∧
    (∀ (s : LesServer) (a b a' b' : LoopState) (es es' : List Event),
      run s (updateRecharge s a) es = some a' → run s (updateRecharge s b) es' = some b' →
      a'.processing = b'.processing → a'.totalRecharge = b'.totalRecharge →
      a'.threads = b'.threads ∧ a'.curve = b'.curve) := by
  constructor
  · intro s st0 hp
    refine ⟨_, _, rfl, rfl, ?_, ?_, ?_, ?_, ?_, ?_⟩ <;> simp [updateRecharge, hp]
  · intro s a b a' b' es es' ha hb hp hT
    have h1 := run_tuned s es _ _ (updateRecharge_tuned s a) ha
    have h2 := run_tuned s es' _ _ (updateRecharge_tuned s b) hb
    unfold Tuned at h1 h2
    rw [h1.1, h1.2, h2.1, h2.2, hp, hT]
    exact ⟨rfl, rfl⟩

/-- Witness for C5: the server of `LightServ = 250` with total recharge 1000,
through start/stop, and two different event histories ending in the same mode. -/
theorem start_stop_restores_witness :
    (∃ st1 st2,
      handle (NewLesServer 250 1000)
        (updateRecharge (NewLesServer 250 1000)
          (startEventLoop (NewLesServer 250 1000) 1000 0 0 [])) (.blockProc true) = some st1 ∧
      handle (NewLesServer 250 1000) st1 (.blockProc false) = some st2 ∧
      st2.threads = 10 ∧ st2.curve = [⟨0, 0⟩, ⟨62, 500⟩, ⟨500, 500⟩, ⟨1000, 1000⟩]) ∧
    (∃ a' b',
      run (NewLesServer 250 1000)
        (updateRecharge (NewLesServer 250 1000)
          (startEventLoop (NewLesServer 250 1000) 1000 0 0 []))
        [.blockProc true, .totalRecharge 7, .blockProc false] = some a' ∧
      run (NewLesServer 250 1000)
        (updateRecharge (NewLesServer 250 1000)
          (startEventLoop (NewLesServer 250 1000) 7 0 0 [])) [] = some b' ∧
      a'.threads = b'.threads ∧ a'.curve = b'.curve) := by
  constructor
  · obtain ⟨st1, st2, h1, h2, h3, h4, h5, h6, _, _⟩ :=
      start_stop_restores.1 (NewLesServer 250 1000)
        (startEventLoop (NewLesServer 250 1000) 1000 0 0 []) rfl
    refine ⟨st1, st2, h1, h2, ?_, ?_⟩
    · rw [h5, h3]
      decide
    · rw [h6, h4]
      decide
  · refine ⟨_, _, rfl, rfl, ?_⟩
    exact start_stop_restores.2 (NewLesServer 250 1000)
      (startEventLoop (NewLesServer 250 1000) 1000 0 0 [])
      (startEventLoop (NewLesServer 250 1000) 7 0 0 []) _ _
      [.blockProc true, .totalRecharge 7, .blockProc false] [] rfl rfl rfl rfl

end Les

namespace Les

/-! ## Throttling during block processing -/

theorem valueAt_normal_ge (T : Nat) (x : ℚ) (hT : x ≤ T) :
    x ≤ valueAt [⟨0, 0⟩, ⟨T / 16, T / 2⟩, ⟨T / 2, T / 2⟩, ⟨T, T⟩] x := by
  have hah : ((T / 16 : ℕ) : ℚ) ≤ ((T / 2 : ℕ) : ℚ) := by
    exact_mod_cast (by omega : T / 16 ≤ T / 2)
  simp only [valueAt, Nat.cast_zero, sub_zero, zero_add, sub_self, zero_mul, zero_div, add_zero]
  split_ifs with c1 c2 c3
  · exact c1
  · have ha : (0 : ℚ) < ((T / 16 : ℕ) : ℚ) := lt_of_lt_of_le (not_le.mp c1) c2
    rw [le_div_iff₀ ha]
    have hx : 0 < x := not_le.mp c1
    nlinarith
  · exact c3
  · have hd : (0 : ℚ) < (T : ℚ) - ((T / 2 : ℕ) : ℚ) := by linarith [not_le.mp c3]
    rw [mul_div_cancel_left₀ _ hd.ne']
    linarith

theorem valueAt_normal_gt (T : Nat) (x : ℚ) (h0 : 0 < x) (hx : x < ((T / 2 : ℕ) : ℚ)) :
    x < valueAt [⟨0, 0⟩, ⟨T / 16, T / 2⟩, ⟨T / 2, T / 2⟩, ⟨T, T⟩] x := by
  have hh : 0 < T / 2 := by
    have : (0 : ℚ) < ((T / 2 : ℕ) : ℚ) := lt_trans h0 hx
    exact_mod_cast this
  have hah : ((T / 16 : ℕ) : ℚ) < ((T / 2 : ℕ) : ℚ) := by
    exact_mod_cast (by omega : T / 16 < T / 2)
  simp only [valueAt, Nat.cast_zero, sub_zero, zero_add, sub_self, zero_mul, zero_div, add_zero]
  rw [if_neg (not_le.mpr h0)]
  by_cases c2 : x ≤ ((T / 16 : ℕ) : ℚ)
  · have ha : (0 : ℚ) < ((T / 16 : ℕ) : ℚ) := lt_of_lt_of_le h0 c2
    rw [if_pos c2, lt_div_iff₀ ha]
    nlinarith
  · rw [if_neg c2, if_pos hx.le]
    split_ifs
    exact hx

/-- C6: for every total recharge `T`, the curve `updateRecharge` sets while
processing is `(0,0),(T,T)` and the one it sets otherwise is
`(0,0),(T/16,T/2),(T/2,T/2),(T,T)`, both ending in the control point `(T, T)`;
at every accumulated recharge `x` with `0 ≤ x ≤ T` the block-processing curve
gives the rate `x` and the normal curve a rate of at least `x`, so the
block-processing rate is at most the normal rate, and it is strictly smaller
for `0 < x < T/2`. -/
theorem block_curve_le_normal_curve (s : LesServer) (st : LoopState) (T : Nat) (x : ℚ)
    (h0 : 0 ≤ x) (hT : x ≤ T) :
    (updateRecharge s { st with processing := true, totalRecharge := T }).curve =
      [⟨0, 0⟩, ⟨T, T⟩] ∧
    (updateRecharge s { st with processing := false, totalRecharge := T }).curve =
      [⟨0, 0⟩, ⟨T / 16, T / 2⟩, ⟨T / 2, T / 2⟩, ⟨T, T⟩] ∧
    valueAt (updateRecharge s { st with processing := true, totalRecharge := T }).curve x = x ∧
    x ≤ valueAt (updateRecharge s { st with processing := false, totalRecharge := T }).curve x ∧
    valueAt (updateRecharge s { st with processing := true, totalRecharge := T }).curve x ≤
      valueAt (updateRecharge s { st with processing := false, totalRecharge := T }).curve x ∧
    (0 < x → x < ((T / 2 : ℕ) : ℚ) →
      valueAt (updateRecharge s { st with processing := true, totalRecharge := T }).curve x <
        valueAt (updateRecharge s { st with processing := false, totalRecharge := T }).curve x) ∧
    (updateRecharge s { st with processing := true, totalRecharge := T }).curve.getLast? =
      some ⟨T, T⟩ ∧
    (updateRecharge s { st with processing := false, totalRecharge := T }).curve.getLast? =
      some ⟨T, T⟩ := by
  have hb : (updateRecharge s { st with processing := true, totalRecharge := T }).curve =
      [⟨0, 0⟩, ⟨T, T⟩] := by
    simp [updateRecharge]
  have hn : (updateRecharge s { st with processing := false, totalRecharge := T }).curve =
      [⟨0, 0⟩, ⟨T / 16, T / 2⟩, ⟨T / 2, T / 2⟩, ⟨T, T⟩] := by
    simp [updateRecharge]
  rw [hb, hn, valueAt_two T x h0 hT]
  refine ⟨rfl, rfl, rfl, valueAt_normal_ge T x hT, valueAt_normal_ge T x hT, ?_, ?_, ?_⟩
  · intro hpos hlt
    exact valueAt_normal_gt T x hpos hlt
  · simp
  · simp

/-- Witness for C6: total recharge 1000 at accumulated recharge 30, where the
block-processing rate is 30 and the normal rate is strictly larger. -/
theorem block_curve_le_normal_curve_witness :
    valueAt (updateRecharge (NewLesServer 250 1000)
        { startEventLoop (NewLesServer 250 1000) 0 0 0 [] with
          processing := true, totalRecharge := 1000 }).curve 30 = 30 ∧
    valueAt (updateRecharge (NewLesServer 250 1000)
        { startEventLoop (NewLesServer 250 1000) 0 0 0 [] with
          processing := true, totalRecharge := 1000 }).curve 30 <
      valueAt (updateRecharge (NewLesServer 250 1000)
        { startEventLoop (NewLesServer 250 1000) 0 0 0 [] with
          processing := false, totalRecharge := 1000 }).curve 30 :=
  have h := block_curve_le_normal_curve (NewLesServer 250 1000)
    (startEventLoop (NewLesServer 250 1000) 0 0 0 []) 1000 30 (by norm_num) (by norm_num)
  ⟨h.2.2.1, h.2.2.2.2.2.1 (by norm_num) (by norm_num)⟩

/-! ## Total-capacity events -/

/-- When the free-client capacity is not zero, a total-capacity event is handled
without failure: the limits pushed to the priority pool are `(maxPeers, c)` and
`maxFreePeers` becomes `c / freeClientCap`. -/
theorem handle_totalCapacity_of_pos (s : LesServer) (st : LoopState) (c : Nat)
    (h : s.freeClientCap ≠ 0) :
    ∃ st', handle s st (.totalCapacity c) = some st' ∧
      st'.limits = (s.maxPeers, c) ∧ st'.maxFreePeers = c / s.freeClientCap ∧
      st'.totalCapacity = c := by
  simp only [handle, if_neg h]
  refine ⟨_, rfl, ?_, rfl, ?_⟩ <;> split <;> rfl

theorem Start_freeClientCap_eq_zero (LightServ LightPeers : Int) (minCapacity totalRecharge : Nat)
    (h : LightPeers ≤ 0 ∨ minCapacity = 0) :
    (Start (NewLesServer LightServ minCapacity) LightPeers totalRecharge).1.freeClientCap = 0 := by
  simp only [Start, NewLesServer]
  rcases h with h | h
  · rw [if_neg (by omega)]
  · subst h
    split <;> simp

/-- C7 fails on the code: after `Start` with `LightPeers = 0` (any minimum
capacity), or with minimum capacity 0 (any `LightPeers`), `freeClientCap` is 0
and the handler of every total-capacity event panics on the division
`totalCapacity / s.freeClientCap` instead of pushing the limits. -/
theorem handle_totalCapacity_panics :
    (∀ (LightServ : Int) (minCapacity totalRecharge c : Nat) (st : LoopState),
      handle (Start (NewLesServer LightServ minCapacity) 0 totalRecharge).1 st
        (.totalCapacity c) = none) ∧
    (∀ (LightServ LightPeers : Int) (totalRecharge c : Nat) (st : LoopState),
      handle (Start (NewLesServer LightServ 0) LightPeers totalRecharge).1 st
        (.totalCapacity c) = none) ∧
    handle (Start (NewLesServer 100 1000) 0 5000).1
      (startEventLoop (Start (NewLesServer 100 1000) 0 5000).1 5000 5000 0 [])
      (.totalCapacity 1000000) = none := by
  refine ⟨?_, ?_, ?_⟩
  · intro LS mc tr c st
    simp only [handle]
    rw [if_pos (Start_freeClientCap_eq_zero LS 0 mc tr (Or.inl le_rfl))]
  · intro LS LP tr c st
    simp only [handle]
    rw [if_pos (Start_freeClientCap_eq_zero LS LP 0 tr (Or.inr rfl))]
  · rfl

/-! ## Default flow-control parameters -/

theorem Start_fst_of_pos (s : LesServer) (LightPeers : Int) (totalRecharge : Nat)
    (hLP : 0 < LightPeers) (hmc : 0 < s.minCapacity) :
    (Start s LightPeers totalRecharge).1 =
      { s with
        maxPeers := LightPeers
        freeClientCap := s.minCapacity
        defParams := ⟨wrapU64 (s.minCapacity * bufLimitRatio), s.minCapacity⟩ } := by
  simp [Start, hLP, hmc]

/-- C8: `Start` on the server built by `NewLesServer` always leaves
`defParams.BufLimit = defParams.MinRecharge * 6000 mod 2^64`; when
`LightPeers > 0` and the minimum capacity is positive, `MinRecharge`,
`freeClientCap` and the minimum capacity coincide; and when moreover
`minCapacity * 6000 < 2^64`, `BufLimit = 6000 * MinRecharge` and
`BufLimit / MinRecharge = 6000`. -/
theorem Start_defParams :
    (∀ (LightServ LightPeers : Int) (minCapacity totalRecharge : Nat),
      (Start (NewLesServer LightServ minCapacity) LightPeers totalRecharge).1.defParams.BufLimit =
        (Start (NewLesServer LightServ minCapacity) LightPeers
          totalRecharge).1.defParams.MinRecharge * bufLimitRatio % 2 ^ 64) ∧
    (∀ (s : LesServer) (LightPeers : Int) (totalRecharge : Nat),
      0 < LightPeers → 0 < s.minCapacity →
      (Start s LightPeers totalRecharge).1.defParams.MinRecharge =
        (Start s LightPeers totalRecharge).1.freeClientCap ∧
      (Start s LightPeers totalRecharge).1.freeClientCap = s.minCapacity ∧
      (Start s LightPeers totalRecharge).1.defParams.BufLimit =
        (Start s LightPeers totalRecharge).1.defParams.MinRecharge * 6000 % 2 ^ 64 ∧
      (s.minCapacity * 6000 < 2 ^ 64 →
        (Start s LightPeers totalRecharge).1.defParams.BufLimit =
          6000 * (Start s LightPeers totalRecharge).1.defParams.MinRecharge ∧
        (Start s LightPeers totalRecharge).1.defParams.BufLimit /
          (Start s LightPeers totalRecharge).1.defParams.MinRecharge = 6000)) := by
  constructor
  · intro LS LP mc tr
    by_cases hLP : 0 < LP
    · by_cases hmc : 0 < mc
      · rw [Start_fst_of_pos _ LP tr hLP hmc]
        rfl
      · have h0 : mc = 0 := by omega
        subst h0
        simp [Start, NewLesServer]
    · simp [Start, NewLesServer, hLP]
  · intro s LP tr hLP hmc
    rw [Start_fst_of_pos s LP tr hLP hmc]
    refine ⟨rfl, rfl, rfl, fun hb => ?_⟩
    show wrapU64 (s.minCapacity * bufLimitRatio) = 6000 * s.minCapacity ∧
      wrapU64 (s.minCapacity * bufLimitRatio) / s.minCapacity = 6000
    have e : wrapU64 (s.minCapacity * bufLimitRatio) = 6000 * s.minCapacity := by
      unfold wrapU64 bufLimitRatio
      rw [Nat.mod_eq_of_lt hb, Nat.mul_comm]
    rw [e]
    exact ⟨rfl, Nat.mul_div_cancel _ hmc⟩

/-- Witness for C8: `LightPeers = 100`, minimum capacity 1000. -/
theorem Start_defParams_witness :
    (Start (NewLesServer 250 1000) 100 5000).1.defParams = ⟨6000000, 1000⟩ ∧
    (Start (NewLesServer 250 1000) 100 5000).1.defParams.BufLimit /
      (Start (NewLesServer 250 1000) 100 5000).1.defParams.MinRecharge = 6000 :=
  ⟨by decide,
   ((Start_defParams.2 (NewLesServer 250 1000) 100 5000 (by decide) (by decide)).2.2.2
      (by decide)).2⟩

end Les

namespace Ethchain

/-! ## RLP list layout and decoding -/

theorem ValueOps.Lawful.get_lt {V : Type} {ops : ValueOps V} (h : ops.Lawful)
    (xs : List Iface) (i : Nat) (hi : i < xs.length) :
    ops.Get (ops.NewValue (.list xs)) i = ops.NewValue xs[i] :=
  h.1 xs i xs[i] (List.getElem?_eq_getElem hi)

theorem plainOps_lawful : plainOps.Lawful := by
  refine ⟨?_, ?_, ?_, ?_, ?_, ?_⟩
  · intro xs i x h
    exact h
  · intro xs
    rfl
  · intro n _
    rfl
  · intro b _
    rfl
  · intro z
    rfl
  · intro bs
    rfl

/-- C9: for every transaction whose `Value`, `GasPrice` and `Gas` are non-nil
and whose `Init` is empty unless it is a contract creation, and for
`ethutil.Value` methods that give back what a value wraps, `RlpData` is the
9-element list `[Nonce, Value, GasPrice, Gas, Recipient, Data, v, r, s]` for a
plain transaction and the 10-element list with `Init` before `v` for a
contract creation, and `NewTransactionFromValue(tx.RlpValue())` equals `tx`
field by field, the contract-creation flag included. -/
theorem NewTransactionFromValue_RlpValue {V : Type} (ops : ValueOps V) (hops : ops.Lawful)
    (tx : Transaction) (hN : tx.Nonce < 2 ^ 64) (hv : tx.v < 256)
    (hV : tx.Value ≠ none) (hP : tx.GasPrice ≠ none) (hG : tx.Gas ≠ none)
    (hI : tx.contractCreation = false → tx.Init = []) :
    (tx.contractCreation = false →
      tx.RlpData = .list [.uint64 tx.Nonce, .bigInt tx.Value, .bigInt tx.GasPrice,
        .bigInt tx.Gas, .bytes tx.Recipient, .bytes tx.Data,
        .byte tx.v, .bytes tx.r, .bytes tx.s]) ∧
    (tx.contractCreation = true →
      tx.RlpData = .list [.uint64 tx.Nonce, .bigInt tx.Value, .bigInt tx.GasPrice,
        .bigInt tx.Gas, .bytes tx.Recipient, .bytes tx.Data, .bytes tx.Init,
        .byte tx.v, .bytes tx.r, .bytes tx.s]) ∧
    NewTransactionFromValue ops (tx.RlpValue ops) = tx := by
  obtain ⟨Nonce, Recipient, Value, Gas, GasPrice, Data, Init, v, r, s, cc⟩ := tx
  simp only at hN hv hV hP hG hI
  obtain ⟨value, rfl⟩ := Option.ne_none_iff_exists'.mp hV
  obtain ⟨gasPrice, rfl⟩ := Option.ne_none_iff_exists'.mp hP
  obtain ⟨gas, rfl⟩ := Option.ne_none_iff_exists'.mp hG
  have hU := hops.2.2.1
  have hB := hops.2.2.2.1
  have hZ := hops.2.2.2.2.1
  have hS := hops.2.2.2.2.2
  cases cc
  · have hI' : Init = [] := hI rfl
    subst hI'
    refine ⟨fun _ => rfl, fun h => absurd h (by simp), ?_⟩
    simp only [NewTransactionFromValue, Transaction.RlpValueDecode, Transaction.RlpValue,
      Transaction.RlpData, Transaction.zero, Bool.false_eq_true, if_false, List.cons_append,
      List.nil_append, hops.2.1]
    simp [hops.get_lt, hU _ hN, hB _ hv, hZ, hS, Nat.mod_eq_of_lt hv]
  · refine ⟨fun h => absurd h (by simp), fun _ => rfl, ?_⟩
    simp only [NewTransactionFromValue, Transaction.RlpValueDecode, Transaction.RlpValue,
      Transaction.RlpData, Transaction.zero, if_true, List.cons_append,
      List.nil_append, hops.2.1]
    simp [hops.get_lt, hU _ hN, hB _ hv, hZ, hS, Nat.mod_eq_of_lt hv]

/-- Witness for C9: a contract creation decoded with `plainOps`. -/
theorem NewTransactionFromValue_RlpValue_witness :
    NewTransactionFromValue plainOps
      (Transaction.RlpValue plainOps
        { Nonce := 7, Recipient := [], Value := some 100, Gas := some 21, GasPrice := some 3,
          Data := [96, 0], Init := [1, 2, 3], v := 28, r := [17], s := [34],
          contractCreation := true }) =
      { Nonce := 7, Recipient := [], Value := some 100, Gas := some 21, GasPrice := some 3,
        Data := [96, 0], Init := [1, 2, 3], v := 28, r := [17], s := [34],
        contractCreation := true } :=
  (NewTransactionFromValue_RlpValue plainOps plainOps_lawful _ (by decide) (by decide)
    (by decide) (by decide) (by decide) (by decide)).2.2

/-! ## `Sender` -/

/-- When public-key recovery returns a non-empty key, `Sender` does not fail on
the key check: it returns `nil` if the first byte is not 4 and otherwise the
hash of the rest of the key without its first 12 bytes, provided the hash has
at least 12 bytes. -/
theorem Sender_of_key_cons (c : Crypto) (tx : Transaction) (b : Nat) (rest : List Nat)
    (hk : tx.PublicKey c = b :: rest) :
    (b ≠ 4 → tx.Sender c = some none) ∧
    (b = 4 → 12 ≤ (c.Sha3Bin rest).length →
      tx.Sender c = some (some ((c.Sha3Bin rest).drop 12))) := by
  constructor
  · intro hb
    simp [Transaction.Sender, hk, hb]
  · intro hb hl
    simp [Transaction.Sender, hk, hb, Nat.not_lt.mpr hl]

/-- C10 fails on the code: whenever public-key recovery returns the empty
sequence, as it does when recovery fails, `Sender` panics on `pubkey[0]`
instead of returning `nil`; shown for every transaction, every hash and
encoding function, and in particular for an unsigned transaction. -/
theorem Sender_panics_on_empty_key :
    (∀ (sha3 : List Nat → List Nat) (enc : Iface → List Nat) (tx : Transaction),
      tx.Sender ⟨sha3, enc, fun _ _ => []⟩ = none) ∧
    Transaction.Sender ⟨fun _ => List.replicate 32 0, fun _ => [], fun _ _ => []⟩
      (NewTransactionMessage (List.replicate 20 1) (some 1) (some 1) (some 1) []) = none :=
  ⟨fun _ _ _ => rfl, rfl⟩

end Ethchain

namespace Ethchain

/-! ## `ProcessTransaction` -/

theorem listOps_lawful : listOps.Lawful := by
  refine ⟨fun _ _ => rfl, fun _ _ => rfl, ?_, ?_, ?_⟩
  · intro st addr
    simp only [listOps]
    split
    · next o h => simpa using List.find?_some h
    · rfl
  · intro st o
    simp [listOps]
  · intro st o addr h
    have h' : ¬ o.address = addr := fun e => h e.symm
    simp [listOps, List.find?_cons, h']

/-- C11 as stated fails: with sender nonce and transaction nonce both
`2^64 - 1`, enough funds and a recipient other than the sender,
`ProcessTransaction` returns no error and moves the funds, but the `uint64`
nonce it writes back has wrapped to 0 instead of growing by 1. -/
theorem ProcessTransaction_nonce_wraps :
    Transaction.Sender fixedCrypto
      { Nonce := 2 ^ 64 - 1, Recipient := List.replicate 20 1, Value := some 5, Gas := some 2,
        GasPrice := some 3, Data := [], Init := [], v := 27, r := [], s := [],
        contractCreation := false } = some (some (List.replicate 20 7)) ∧
    (listOps.GetAccount [⟨List.replicate 20 7, 100, 2 ^ 64 - 1⟩] (List.replicate 20 7)).Nonce =
      2 ^ 64 - 1 ∧
    (5 : Int) + 2 * 3 ≤
      (listOps.GetAccount [⟨List.replicate 20 7, 100, 2 ^ 64 - 1⟩] (List.replicate 20 7)).Amount ∧
    List.replicate 20 1 ≠ List.replicate 20 7 ∧
    (ProcessTransaction fixedCrypto listOps ⟨1, 1⟩
      { Nonce := 2 ^ 64 - 1, Recipient := List.replicate 20 1, Value := some 5, Gas := some 2,
        GasPrice := some 3, Data := [], Init := [], v := 27, r := [], s := [],
        contractCreation := false }
      [⟨List.replicate 20 7, 100, 2 ^ 64 - 1⟩] false).err = none ∧
    (listOps.GetAccount
      (ProcessTransaction fixedCrypto listOps ⟨1, 1⟩
        { Nonce := 2 ^ 64 - 1, Recipient := List.replicate 20 1, Value := some 5, Gas := some 2,
          GasPrice := some 3, Data := [], Init := [], v := 27, r := [], s := [],
          contractCreation := false }
        [⟨List.replicate 20 7, 100, 2 ^ 64 - 1⟩] false).state
      (List.replicate 20 7)) = ⟨List.replicate 20 7, 89, 0⟩ ∧
    (0 : Nat) ≠ (2 ^ 64 - 1) + 1 := by
  decide

end Ethchain

namespace Ethchain

theorem ProcessTransaction_eq_of_funded {S : Type} (c : Crypto) (ops : StateOps S) (f : Fees)
    (tx : Transaction) (state : S) (toContract : Bool) (sender : Option (List Nat))
    (value gas gasPrice : Int)
    (hS : tx.Sender c = some sender) (hV : tx.Value = some value) (hG : tx.Gas = some gas)
    (hP : tx.GasPrice = some gasPrice)
    (hN : (ops.GetAccount state (sender.getD [])).Nonce = tx.Nonce)
    (hA : value + gas * gasPrice ≤ (ops.GetAccount state (sender.getD [])).Amount)
    (hR : tx.Recipient ≠ sender.getD []) :
    ProcessTransaction c ops f tx state toContract =
      ⟨0 + (tx.Data.length : Int) / Big32 * f.GasSStore, none,
        ops.UpdateStateObject
          (ops.UpdateStateObject state
            (ops.AddAmount (ops.GetAccount state tx.Recipient) value))
          (ops.SubAmount
            { ops.GetAccount state (sender.getD []) with
              Nonce := Les.wrapU64 ((ops.GetAccount state (sender.getD [])).Nonce + 1) }
            (value + gas * gasPrice))⟩ := by
  simp only [ProcessTransaction, hS, hV, hG, hP, hN, ne_eq, not_true_eq_false, if_false,
    if_neg (not_lt.mpr hA), if_neg hR]

/-- Where the claim's hypotheses have no reading, `ProcessTransaction` returns
the error of a recovered panic and leaves the state alone: when `Sender`
panics, and when the nonce matches but `Gas` is nil. -/
theorem ProcessTransaction_recovered {S : Type} (c : Crypto) (ops : StateOps S) (f : Fees)
    (tx : Transaction) (state : S) (toContract : Bool) :
    (tx.Sender c = none →
      (ProcessTransaction c ops f tx state toContract).err = some .recovered ∧
      (ProcessTransaction c ops f tx state toContract).state = state) ∧
    (∀ sender, tx.Sender c = some sender →
      (ops.GetAccount state (sender.getD [])).Nonce = tx.Nonce → tx.Gas = none →
      (ProcessTransaction c ops f tx state toContract).err = some .recovered ∧
      (ProcessTransaction c ops f tx state toContract).state = state) := by
  constructor
  · intro hS
    simp [ProcessTransaction, hS]
  · intro sender hS hN hG
    simp [ProcessTransaction, hS, hN, hG]

/-- C11, amended: for a transaction with non-nil `Value`, `Gas` and `GasPrice`
whose `Sender()` returns, and a state in which the sender's nonce equals
`tx.Nonce` and is below `2^64 - 1`, the sender's amount is at least
`tx.Value + tx.Gas*tx.GasPrice` and the recipient differs from the sender,
`ProcessTransaction` returns no error; in the state it leaves, the sender's
amount is lower by exactly `tx.Value + tx.Gas*tx.GasPrice`, the sender's nonce
higher by exactly 1 and the recipient's amount higher by exactly `tx.Value`;
and that state is the old one with the recipient's and then the sender's
updated object written by `UpdateStateObject`. -/
theorem ProcessTransaction_transfer {S : Type} (c : Crypto) (ops : StateOps S)
    (hops : ops.Lawful) (f : Fees) (tx : Transaction) (state : S) (toContract : Bool)
    (sender : Option (List Nat)) (value gas gasPrice : Int)
    (hS : tx.Sender c = some sender) (hV : tx.Value = some value) (hG : tx.Gas = some gas)
    (hP : tx.GasPrice = some gasPrice)
    (hN : (ops.GetAccount state (sender.getD [])).Nonce = tx.Nonce)
    (hNb : tx.Nonce + 1 < 2 ^ 64)
    (hA : value + gas * gasPrice ≤ (ops.GetAccount state (sender.getD [])).Amount)
    (hR : tx.Recipient ≠ sender.getD []) :
    (ProcessTransaction c ops f tx state toContract).err = none ∧
    (ops.GetAccount (ProcessTransaction c ops f tx state toContract).state
        (sender.getD [])).Amount =
      (ops.GetAccount state (sender.getD [])).Amount - (value + gas * gasPrice) ∧
    (ops.GetAccount (ProcessTransaction c ops f tx state toContract).state
        (sender.getD [])).Nonce =
      (ops.GetAccount state (sender.getD [])).Nonce + 1 ∧
    (ops.GetAccount (ProcessTransaction c ops f tx state toContract).state
        tx.Recipient).Amount =
      (ops.GetAccount state tx.Recipient).Amount + value ∧
    (ProcessTransaction c ops f tx state toContract).state =
      ops.UpdateStateObject
        (ops.UpdateStateObject state
          { ops.GetAccount state tx.Recipient with
            Amount := (ops.GetAccount state tx.Recipient).Amount + value })
        { ops.GetAccount state (sender.getD []) with
          Amount := (ops.GetAccount state (sender.getD [])).Amount - (value + gas * gasPrice)
          Nonce := (ops.GetAccount state (sender.getD [])).Nonce + 1 } := by
  obtain ⟨hSub, hAdd, hAddr, hGet, hGetNe⟩ := hops
  have hw : Les.wrapU64 ((ops.GetAccount state (sender.getD [])).Nonce + 1) =
      (ops.GetAccount state (sender.getD [])).Nonce + 1 := by
    rw [hN]
    exact Nat.mod_eq_of_lt hNb
  rw [ProcessTransaction_eq_of_funded c ops f tx state toContract sender value gas gasPrice
    hS hV hG hP hN hA hR, hSub, hAdd, hw]
  have h1 := hGet
    (ops.UpdateStateObject state
      { ops.GetAccount state tx.Recipient with
        Amount := (ops.GetAccount state tx.Recipient).Amount + value })
    { ops.GetAccount state (sender.getD []) with
      Amount := (ops.GetAccount state (sender.getD [])).Amount - (value + gas * gasPrice)
      Nonce := (ops.GetAccount state (sender.getD [])).Nonce + 1 }
  have h2 := hGetNe
    (ops.UpdateStateObject state
      { ops.GetAccount state tx.Recipient with
        Amount := (ops.GetAccount state tx.Recipient).Amount + value })
    { ops.GetAccount state (sender.getD []) with
      Amount := (ops.GetAccount state (sender.getD [])).Amount - (value + gas * gasPrice)
      Nonce := (ops.GetAccount state (sender.getD [])).Nonce + 1 }
    tx.Recipient (by simpa [hAddr] using hR)
  have h3 := hGet state
    { ops.GetAccount state tx.Recipient with
      Amount := (ops.GetAccount state tx.Recipient).Amount + value }
  simp only [hAddr] at h1 h2 h3
  refine ⟨rfl, ?_, ?_, ?_, rfl⟩
  · simp only [hAddr, h1]
  · simp only [hAddr, h1]
  · simp only [hAddr, h2, h3]

/-- Witness for the amended C11: the sender of `fixedCrypto` with nonce 3 and
amount 100 sends 5 with gas 2 at price 3 to another address. -/
theorem ProcessTransaction_transfer_witness :
    (ProcessTransaction fixedCrypto listOps ⟨1, 1⟩
      { Nonce := 3, Recipient := List.replicate 20 1, Value := some 5, Gas := some 2,
        GasPrice := some 3, Data := [], Init := [], v := 27, r := [], s := [],
        contractCreation := false }
      [⟨List.replicate 20 7, 100, 3⟩] false).err = none ∧
    (listOps.GetAccount
      (ProcessTransaction fixedCrypto listOps ⟨1, 1⟩
        { Nonce := 3, Recipient := List.replicate 20 1, Value := some 5, Gas := some 2,
          GasPrice := some 3, Data := [], Init := [], v := 27, r := [], s := [],
          contractCreation := false }
        [⟨List.replicate 20 7, 100, 3⟩] false).state
      (List.replicate 20 7)).Nonce = 3 + 1 :=
  have h := ProcessTransaction_transfer fixedCrypto listOps listOps_lawful ⟨1, 1⟩
    { Nonce := 3, Recipient := List.replicate 20 1, Value := some 5, Gas := some 2,
      GasPrice := some 3, Data := [], Init := [], v := 27, r := [], s := [],
      contractCreation := false }
    [⟨List.replicate 20 7, 100, 3⟩] false (some (List.replicate 20 7)) 5 2 3
    (by decide) rfl rfl rfl (by decide) (by decide) (by decide) (by decide)
  ⟨h.1, h.2.2.1⟩

end Ethchain
